import Mathlib

/-!
Verification of the `slide` module: a `Slide` iterator over slices and
`Vec`s that yields, for each element, the pair of that element and the
(optional) slice of all elements strictly after it.

The Rust slice `&'a [T]` is embedded as `List α`; slicing `v[p..]` is
`List.drop p v`; `slice::get` is `l[i]?`; the iterator state `Slide`
holds the sequence `v` and the cursor `pos`.  The stateful `next`
method is embedded as a function from the state to the pair of the
yielded `Option` item and the successor state.
-/

/-- The `Slide` iterator state: a sequence `v` and a cursor `pos`
(field names as in the Rust struct `Slide { v, pos }`). -/
structure Slide (α : Type) where
  v : List α
  pos : Nat
deriving DecidableEq, Repr

/-- Embedding of `Slide::next`.  Returns the yielded item (if any)
together with the state after the call.  Mirrors the Rust body:
`self.v.get(self.pos).map(|val| { self.pos += 1; if self.v.len() > self.pos
{ (val, Some(&self.v[self.pos..])) } else { (val, None) } })`. -/
def Slide.next {α : Type} (s : Slide α) : Option (α × Option (List α)) × Slide α :=
  match s.v[s.pos]? with
  | none => (none, s)
  | some val =>
    let p := s.pos + 1
    if s.v.length > p then
      (some (val, some (s.v.drop p)), { v := s.v, pos := p })
    else
      (some (val, none), { v := s.v, pos := p })

/-- Embedding of `Slide::size_hint`:
`let diff = self.v.len() - self.pos; (diff, Some(diff))`. -/
def Slide.size_hint {α : Type} (s : Slide α) : Nat × Option Nat :=
  let diff := s.v.length - s.pos
  (diff, some diff)

/-- Checked natural subtraction: `some (a - b)` exactly when the Rust
`usize` subtraction `a - b` does not underflow. -/
def checkedSub (a b : Nat) : Option Nat :=
  if b ≤ a then some (a - b) else none

/-- Checked suffix slicing: `some (v[i..])` exactly when the Rust
range-indexing `&v[i..]` does not panic (i.e. `i <= v.len()`). -/
def checkedSuffix {α : Type} (v : List α) (i : Nat) : Option (List α) :=
  if i ≤ v.length then some (v.drop i) else none

/-- `Slide::next` with every fallible operation of the Rust body made
explicit: `slice::get` is already total, and the range-indexing
`&self.v[self.pos..]` goes through `checkedSuffix`; the whole call
returns `none` iff some operation would panic. -/
def Slide.nextChecked {α : Type} (s : Slide α) :
    Option (Option (α × Option (List α)) × Slide α) :=
  match s.v[s.pos]? with
  | none => some (none, s)
  | some val =>
    let p := s.pos + 1
    if s.v.length > p then
      match checkedSuffix s.v p with
      | none => none
      | some suf => some (some (val, some suf), { v := s.v, pos := p })
    else
      some (some (val, none), { v := s.v, pos := p })

/-- `Slide::size_hint` with the `usize` subtraction made explicit via
`checkedSub`; returns `none` iff the subtraction would underflow. -/
def Slide.sizeHintChecked {α : Type} (s : Slide α) : Option (Nat × Option Nat) :=
  match checkedSub s.v.length s.pos with
  | none => none
  | some diff => some (diff, some diff)

/-- Embedding of `impl Slider for &[T]`: `Slide { v: self, pos: 0 }`. -/
def slideSlice {α : Type} (v : List α) : Slide α :=
  { v := v, pos := 0 }

/-- Embedding of `impl Slider for Vec<T>`: `Slide { v: &self[..], pos: 0 }`
(the full-range slice of a `Vec` is the same sequence of elements). -/
def slideVec {α : Type} (v : List α) : Slide α :=
  { v := v, pos := 0 }

/-- State of the iterator after `n` calls to `next`. -/
def Slide.stepN {α : Type} : Slide α → Nat → Slide α
  | s, 0 => s
  | s, n + 1 => Slide.stepN (s.next).2 n

/-- The item yielded by the `i`-th call to `next` (0-based) on state `s`. -/
def Slide.outputAt {α : Type} (s : Slide α) (i : Nat) : Option (α × Option (List α)) :=
  ((s.stepN i).next).1

/-- The number of items actually produced by the first `n` calls to
`next` on a fresh view over `S`. -/
def producedCount {α : Type} (S : List α) (n : Nat) : Nat :=
  ((List.range n).filter (fun i => ((slideSlice S).outputAt i).isSome)).length

/-- When the cursor is past the last index, `next` yields nothing and
leaves the state untouched. -/
theorem Slide.next_of_ge {α : Type} (v : List α) (p : Nat) (h : v.length ≤ p) :
    Slide.next ⟨v, p⟩ = (none, ⟨v, p⟩) := by
  unfold Slide.next
  simp [List.getElem?_eq_none h]

/-- When the cursor is in range, `next` yields the element there, a
suffix exactly when more elements follow, and advances the cursor. -/
theorem Slide.next_of_lt {α : Type} (v : List α) (p : Nat) (h : p < v.length) :
    Slide.next ⟨v, p⟩ =
      (some (v.get ⟨p, h⟩,
        if v.length > p + 1 then some (v.drop (p + 1)) else none), ⟨v, p + 1⟩) := by
  unfold Slide.next
  simp only [List.getElem?_eq_getElem h, List.get_eq_getElem]
  split <;> simp

/-- After `n` calls to `next` on a state with cursor `p ≤ length`, the
sequence is unchanged and the cursor is `min (p + n) length`. -/
theorem Slide.stepN_eq {α : Type} (v : List α) :
    ∀ (n p : Nat), p ≤ v.length →
      Slide.stepN ⟨v, p⟩ n = ⟨v, min (p + n) v.length⟩ := by
  intro n
  induction n with
  | zero =>
    intro p hp
    simp [Slide.stepN, Nat.min_eq_left hp]
  | succ n ih =>
    intro p hp
    rcases Nat.lt_or_ge p v.length with hlt | hge
    · have hstep : Slide.stepN ⟨v, p⟩ (n + 1) = Slide.stepN ⟨v, p + 1⟩ n := by
        simp [Slide.stepN, Slide.next_of_lt v p hlt]
      rw [hstep, ih (p + 1) hlt]
      congr 1
      omega
    · have hp' : p = v.length := Nat.le_antisymm hp hge
      have hstep : Slide.stepN ⟨v, p⟩ (n + 1) = Slide.stepN ⟨v, p⟩ n := by
        simp [Slide.stepN, Slide.next_of_ge v p hge]
      rw [hstep, ih p hp]
      congr 1
      omega

/-- The state after `n` calls on a fresh view over `S`. -/
theorem Slide.stepN_slideSlice {α : Type} (S : List α) (n : Nat) :
    (slideSlice S).stepN n = ⟨S, min n S.length⟩ := by
  have h := Slide.stepN_eq S n 0 (Nat.zero_le _)
  simpa [slideSlice] using h

/-- The `i`-th item of a fresh view, for `i` in range. -/
theorem Slide.outputAt_of_lt {α : Type} (S : List α) (i : Nat) (h : i < S.length) :
    (slideSlice S).outputAt i =
      some (S.get ⟨i, h⟩,
        if S.length > i + 1 then some (S.drop (i + 1)) else none) := by
  unfold Slide.outputAt
  rw [Slide.stepN_slideSlice, Nat.min_eq_left (Nat.le_of_lt h),
    Slide.next_of_lt S i h]

/-- The `i`-th item of a fresh view is `none` for `i` out of range. -/
theorem Slide.outputAt_of_ge {α : Type} (S : List α) (i : Nat) (h : S.length ≤ i) :
    (slideSlice S).outputAt i = none := by
  unfold Slide.outputAt
  rw [Slide.stepN_slideSlice, Nat.min_eq_right h,
    Slide.next_of_ge S S.length (Nat.le_refl _)]

example : (slideSlice ([] : List Nat)).next = (none, slideSlice []) := by decide
example : (slideSlice [1]).next = (some (1, none), ⟨[1], 1⟩) := by decide
example : (slideSlice [1, 2]).next = (some (1, some [2]), ⟨[1, 2], 1⟩) := by decide
example : (slideSlice [1, 2]).outputAt 1 = some (2, none) := by decide
example : (slideSlice [1, 2]).outputAt 2 = none := by decide
example : ((slideSlice [1, 2, 3]).stepN 2).size_hint = (1, some 1) := by decide

/-- C1: for every sequence `S` and every `i` with `i + 1 < length S`
(that is, `i ∈ [0, N-1)`), the `i`-th call to `next` yields an item
whose suffix component is present and equals `S[i+1 ..]`, and that
suffix is non-empty. -/
theorem slide_suffix_correct {α : Type} (S : List α) (i : Nat)
    (h : i + 1 < S.length) :
    ((slideSlice S).outputAt i).map Prod.snd = some (some (S.drop (i + 1))) ∧
      S.drop (i + 1) ≠ [] := by
  rw [Slide.outputAt_of_lt S i (Nat.lt_of_succ_lt h)]
  refine ⟨by simp [h], ?_⟩
  intro hnil
  have hlen : (S.drop (i + 1)).length = S.length - (i + 1) := List.length_drop _ _
  rw [hnil] at hlen
  simp at hlen
  omega

/-- Witness for C1 at `S = [1, 2, 3]`, `i = 0`. -/
theorem slide_suffix_correct_witness :
    0 + 1 < ([1, 2, 3] : List Nat).length ∧
      (((slideSlice [1, 2, 3]).outputAt 0).map Prod.snd =
          some (some (List.drop (0 + 1) [1, 2, 3])) ∧
        List.drop (0 + 1) ([1, 2, 3] : List Nat) ≠ []) :=
  ⟨by decide, slide_suffix_correct [1, 2, 3] 0 (by decide)⟩

/-- C2: for every sequence `S` and every `i < length S`, the element
component of the `i`-th item yielded by `next` is `S[i]`. -/
theorem slide_element_correct {α : Type} (S : List α) (i : Nat)
    (h : i < S.length) :
    ((slideSlice S).outputAt i).map Prod.fst = some (S.get ⟨i, h⟩) := by
  rw [Slide.outputAt_of_lt S i h]
  simp

/-- Witness for C2 at `S = [4, 5, 6]`, `i = 1`. -/
theorem slide_element_correct_witness :
    1 < ([4, 5, 6] : List Nat).length ∧
      ((slideSlice [4, 5, 6]).outputAt 1).map Prod.fst = some 5 :=
  ⟨by decide, slide_element_correct [4, 5, 6] 1 (by decide)⟩

/-- C3: a fresh view over a non-empty sequence `S` yields an item on
each of the first `length S` calls and yields nothing on every call
from the `length S`-th on: exhaustion is terminal. -/
theorem slide_count_exhaustion {α : Type} (S : List α) (_h : S ≠ []) :
    (∀ i, i < S.length → ((slideSlice S).outputAt i).isSome = true) ∧
      (∀ i, S.length ≤ i → (slideSlice S).outputAt i = none) := by
  refine ⟨fun i hi => ?_, fun i hi => Slide.outputAt_of_ge S i hi⟩
  rw [Slide.outputAt_of_lt S i hi]
  rfl

/-- Witness for C3 at `S = [1, 2]`: the second call yields an item and
the third (and thus every later) call yields nothing. -/
theorem slide_count_exhaustion_witness :
    ([1, 2] : List Nat) ≠ [] ∧
      ((slideSlice [1, 2]).outputAt 1).isSome = true ∧
      (slideSlice ([1, 2] : List Nat)).outputAt 2 = none :=
  ⟨by decide, (slide_count_exhaustion [1, 2] (by decide)).1 1 (by decide),
    (slide_count_exhaustion [1, 2] (by decide)).2 2 (by decide)⟩

/-- C4: for every non-empty sequence `S`, the item yielded for the
last element (index `length S - 1`) has an absent suffix component. -/
theorem slide_last_no_suffix {α : Type} (S : List α) (h : S ≠ []) :
    ((slideSlice S).outputAt (S.length - 1)).map Prod.snd = some none := by
  have hpos : 0 < S.length := List.length_pos.mpr h
  rw [Slide.outputAt_of_lt S (S.length - 1) (by omega)]
  have hif : ¬ S.length > S.length - 1 + 1 := by omega
  simp [hif]

/-- Witness for C4 at `S = [7]`. -/
theorem slide_last_no_suffix_witness :
    ([7] : List Nat) ≠ [] ∧
      ((slideSlice [7]).outputAt (([7] : List Nat).length - 1)).map Prod.snd =
        some none :=
  ⟨by decide, slide_last_no_suffix [7] (by decide)⟩

/-- C7: on the empty sequence every call to `next` yields nothing — in
particular the first call signals exhaustion immediately — and the
state is left unchanged. -/
theorem slide_empty_exhausted (α : Type) (n : Nat) :
    (slideSlice ([] : List α)).outputAt n = none ∧
      (slideSlice ([] : List α)).next = (none, slideSlice []) :=
  ⟨Slide.outputAt_of_ge [] n (Nat.zero_le n),
    Slide.next_of_ge [] 0 (Nat.le_refl 0)⟩

/-- C9: both `Slider` impls (`&[T]` and `Vec<T>`) build the same view:
cursor `0`, sequence equal to the caller's sequence; hence the
traversals they produce are identical. -/
theorem slider_adapters_agree {α : Type} (S : List α) :
    slideSlice S = ⟨S, 0⟩ ∧ slideVec S = ⟨S, 0⟩ ∧ slideVec S = slideSlice S ∧
      ∀ i, (slideVec S).outputAt i = (slideSlice S).outputAt i :=
  ⟨rfl, rfl, rfl, fun _ => rfl⟩

/-- C10: a call to `next` never changes the sequence component; when it
yields nothing the whole state is unchanged, and when it yields an item
the cursor increases by exactly `1`. -/
theorem slide_next_frame {α : Type} (s : Slide α) :
    s.next.2.v = s.v ∧
      (s.next.1 = none → s.next.2 = s) ∧
      (s.next.1.isSome = true → s.next.2.pos = s.pos + 1) := by
  obtain ⟨v, p⟩ := s
  rcases Nat.lt_or_ge p v.length with hlt | hge
  · rw [Slide.next_of_lt v p hlt]
    exact ⟨rfl, fun hcon => by simp at hcon, fun _ => rfl⟩
  · rw [Slide.next_of_ge v p hge]
    exact ⟨rfl, fun _ => rfl, fun hcon => by simp at hcon⟩

/-- Witness for C10 at the states `⟨[1, 2], 0⟩` (producing) and
`⟨[1, 2], 2⟩` (exhausted). -/
theorem slide_next_frame_witness :
    (⟨[1, 2], 0⟩ : Slide Nat).next.2.v = [1, 2] ∧
      (⟨[1, 2], 2⟩ : Slide Nat).next.2 = ⟨[1, 2], 2⟩ ∧
      (⟨[1, 2], 0⟩ : Slide Nat).next.2.pos = 0 + 1 :=
  ⟨(slide_next_frame ⟨[1, 2], 0⟩).1,
    (slide_next_frame ⟨[1, 2], 2⟩).2.1 (by decide),
    (slide_next_frame ⟨[1, 2], 0⟩).2.2 (by decide)⟩

/-- The `i`-th call on a fresh view yields an item iff `i` is an index
of the sequence. -/
theorem Slide.outputAt_isSome {α : Type} (S : List α) (i : Nat) :
    ((slideSlice S).outputAt i).isSome = decide (i < S.length) := by
  rcases Nat.lt_or_ge i S.length with h | h
  · rw [Slide.outputAt_of_lt S i h]
    simp [h]
  · rw [Slide.outputAt_of_ge S i h]
    simp [Nat.not_lt.mpr h]

/-- The first `n` calls on a fresh view over `S` produce exactly
`min n (length S)` items. -/
theorem producedCount_eq_min {α : Type} (S : List α) (n : Nat) :
    producedCount S n = min n S.length := by
  induction n with
  | zero => simp [producedCount]
  | succ n ih =>
    have hstep : producedCount S (n + 1) =
        producedCount S n + (if n < S.length then 1 else 0) := by
      unfold producedCount
      rw [List.range_succ, List.filter_append, List.length_append]
      congr 1
      rw [List.filter_cons, Slide.outputAt_isSome S n]
      by_cases h : n < S.length <;> simp [h]
    rw [hstep, ih]
    by_cases h : n < S.length <;> simp [h] <;> omega

/-- C5: after any number `n` of calls to `next` on a fresh view over
`S`, `size_hint` reports exactly `length S` minus the number of items
already produced, as both bounds — and that value is sequence length
minus the cursor. -/
theorem slide_size_hint_exact {α : Type} (S : List α) (n : Nat) :
    ((slideSlice S).stepN n).size_hint =
        (S.length - producedCount S n, some (S.length - producedCount S n)) ∧
      ((slideSlice S).stepN n).size_hint.1 =
        ((slideSlice S).stepN n).v.length - ((slideSlice S).stepN n).pos := by
  refine ⟨?_, rfl⟩
  rw [Slide.stepN_slideSlice, producedCount_eq_min]
  rfl

/-- C6: the cursor of a fresh view is `0`; on any state whose cursor is
within `[0, length]`, `next` keeps the cursor within `[0, length]` and
never decreases it; and from an exhausted state (`cursor ≥ length`)
`next` yields nothing and loops on the same state. -/
theorem slide_cursor_range {α : Type} (S : List α) (s : Slide α)
    (h : s.pos ≤ s.v.length) :
    (slideSlice S).pos = 0 ∧
      s.next.2.pos ≤ s.next.2.v.length ∧
      s.pos ≤ s.next.2.pos ∧
      (s.v.length ≤ s.pos → s.next = (none, s)) := by
  refine ⟨rfl, ?_, ?_, ?_⟩ <;> obtain ⟨v, p⟩ := s
  · rcases Nat.lt_or_ge p v.length with hlt | hge
    · rw [Slide.next_of_lt v p hlt]
      exact hlt
    · rw [Slide.next_of_ge v p hge]
      exact h
  · rcases Nat.lt_or_ge p v.length with hlt | hge
    · rw [Slide.next_of_lt v p hlt]
      exact Nat.le_succ p
    · rw [Slide.next_of_ge v p hge]
  · exact fun hge => Slide.next_of_ge v p hge

/-- Witness for C6 at `S = [9]` and the exhausted state `⟨[1, 2], 2⟩`. -/
theorem slide_cursor_range_witness :
    (⟨[1, 2], 2⟩ : Slide Nat).pos ≤ (⟨[1, 2], 2⟩ : Slide Nat).v.length ∧
      ((slideSlice ([9] : List Nat)).pos = 0 ∧
        (⟨[1, 2], 2⟩ : Slide Nat).next.2.pos ≤
          (⟨[1, 2], 2⟩ : Slide Nat).next.2.v.length ∧
        (⟨[1, 2], 2⟩ : Slide Nat).pos ≤ (⟨[1, 2], 2⟩ : Slide Nat).next.2.pos ∧
        ((⟨[1, 2], 2⟩ : Slide Nat).v.length ≤ (⟨[1, 2], 2⟩ : Slide Nat).pos →
          (⟨[1, 2], 2⟩ : Slide Nat).next = (none, ⟨[1, 2], 2⟩))) :=
  ⟨by decide, slide_cursor_range [9] ⟨[1, 2], 2⟩ (by decide)⟩

/-- C8: every operation is total.  `next` never hits a panicking
operation on any state (its checked embedding always returns a value,
equal to the unchecked one), and on every state reachable from a fresh
view the `usize` subtraction inside `size_hint` does not underflow. -/
theorem slide_ops_total {α : Type} (S : List α) (n : Nat) (s : Slide α) :
    s.nextChecked = some s.next ∧
      ((slideSlice S).stepN n).sizeHintChecked =
        some ((slideSlice S).stepN n).size_hint := by
  constructor
  · obtain ⟨v, p⟩ := s
    unfold Slide.nextChecked Slide.next
    cases hv : v[p]? with
    | none => rfl
    | some val =>
      have hp : p < v.length := by
        by_contra hcon
        rw [List.getElem?_eq_none (by omega)] at hv
        exact Option.noConfusion hv
      by_cases hlen : v.length > p + 1
      · have hsuf : checkedSuffix v (p + 1) = some (v.drop (p + 1)) := by
          unfold checkedSuffix
          rw [if_pos (by omega)]
        simp [hlen, hsuf]
      · simp [hlen]
  · rw [Slide.stepN_slideSlice]
    have hle : min n S.length ≤ S.length := Nat.min_le_right n S.length
    simp [Slide.sizeHintChecked, checkedSub, Slide.size_hint, hle]
